import Mathlib

/-!
# Fractals: escape-time evaluator and scene composer

Shallow embedding of the fragment shaders of `fractal.cpp` (Mandelbrot demo),
`julia.cpp` (Julia demo) and `fractalf1.cpp` (blended demo).

Numbers: GLSL `float` is embedded as exact rational arithmetic (`ℚ`); decimal
literals of the source are the rationals they denote.  The built-in functions
`exp`, `sin`, `cos` are not rational, so the shaders take them as a parameter
(`Builtins`).  The test `length(z) > 2.0` is embedded as `2 * 2 < z.x² + z.y²`,
which is the same test over the reals (`escaped_iff_sqrt`).

Where rounding decides a property (the iteration count of the escape loop, the
zoom at very large times), the loop and the zoom are also given over a record of
float operations (`FloatOps`), with IEEE 754 single precision as the instance
`binary32`.
-/

namespace Fractals

/-! ## GLSL vectors -/

/-- GLSL `vec2`. -/
structure Vec2 where
  x : ℚ
  y : ℚ
  deriving DecidableEq

/-- GLSL `vec3`. -/
structure Vec3 where
  x : ℚ
  y : ℚ
  z : ℚ
  deriving DecidableEq

/-- GLSL `vec4`. -/
structure Vec4 where
  x : ℚ
  y : ℚ
  z : ℚ
  w : ℚ
  deriving DecidableEq

namespace Vec2

/-- Component-wise `a + b`. -/
def add (a b : Vec2) : Vec2 := ⟨a.x + b.x, a.y + b.y⟩

/-- Component-wise `a - b`. -/
def sub (a b : Vec2) : Vec2 := ⟨a.x - b.x, a.y - b.y⟩

/-- Component-wise `a * b` (GLSL `vec2 * vec2`). -/
def mul (a b : Vec2) : Vec2 := ⟨a.x * b.x, a.y * b.y⟩

/-- Scalar on the left, `s * v`. -/
def smul (s : ℚ) (v : Vec2) : Vec2 := ⟨s * v.x, s * v.y⟩

/-- Scalar on the right, `v * s`. -/
def muls (v : Vec2) (s : ℚ) : Vec2 := ⟨v.x * s, v.y * s⟩

/-- Division by a scalar, `v / s`. -/
def divs (v : Vec2) (s : ℚ) : Vec2 := ⟨v.x / s, v.y / s⟩

/-- Square of `length(z)`: `z.x² + z.y²`. -/
def lengthSq (z : Vec2) : ℚ := z.x * z.x + z.y * z.y

end Vec2

/-- The loop's exit test `length(z) > 2.0`, squared on both sides. -/
def escaped (z : Vec2) : Prop := 2 * 2 < z.lengthSq

instance (z : Vec2) : Decidable (escaped z) := by
  unfold escaped; infer_instance

/-- One recurrence step `z = vec2(z.x*z.x - z.y*z.y, 2.0*z.x*z.y) + c`. -/
def step (z c : Vec2) : Vec2 :=
  Vec2.add ⟨z.x * z.x - z.y * z.y, 2 * z.x * z.y⟩ c

/-! ## Escape-time loop

The loop
```
for (iter = 0.0; iter < MAX_ITER; iter++) {
    if (length(z) > 2.0) break;
    z = vec2(z.x * z.x - z.y * z.y, 2.0 * z.x * z.y) + c;
}
return iter / MAX_ITER;
```
is the same text in `mandelbrot` and `julia` of all three sources.  `steps` is
a ghost counter of executed recurrence assignments.
-/

/-- Loop variables `z`, `iter`, and the ghost counter `steps`. -/
structure LoopState where
  z : Vec2
  iter : ℕ
  steps : ℕ
  deriving DecidableEq

/-- The `for` loop, with fuel. -/
def escapeLoop (MAX_ITER : ℕ) (c : Vec2) : ℕ → LoopState → LoopState
  | 0, s => s
  | fuel + 1, s =>
    if s.iter < MAX_ITER then
      if escaped s.z then s
      else escapeLoop MAX_ITER c fuel ⟨step s.z c, s.iter + 1, s.steps + 1⟩
    else s

/-- Final loop state from seed `z0`; fuel `MAX_ITER` is enough (`escapeRun_spec`). -/
def escapeRun (MAX_ITER : ℕ) (z0 c : Vec2) : LoopState :=
  escapeLoop MAX_ITER c MAX_ITER ⟨z0, 0, 0⟩

/-- The evaluator: `iter / MAX_ITER` after the loop. -/
def escape (MAX_ITER : ℕ) (z0 c : Vec2) : ℚ :=
  ((escapeRun MAX_ITER z0 c).iter : ℚ) / (MAX_ITER : ℚ)

/-- The orbit `z_0 = seed`, `z_{n+1} = z_n² + c`. -/
def orbit (z0 c : Vec2) : ℕ → Vec2
  | 0 => z0
  | n + 1 => step (orbit z0 c n) c

/-- What holds of the final state `s` of a loop entered at orbit index `i`. -/
def LoopPost (N : ℕ) (z0 c : Vec2) (i : ℕ) (s : LoopState) : Prop :=
  s.steps = s.iter ∧ i ≤ s.iter ∧ s.iter ≤ N ∧ s.z = orbit z0 c s.iter ∧
    (∀ n, i ≤ n → n < s.iter → ¬ escaped (orbit z0 c n)) ∧
    (s.iter < N → escaped (orbit z0 c s.iter))


/-! ## GLSL built-ins -/

/-- The transcendental built-ins used by the shaders. -/
structure Builtins where
  exp : ℚ → ℚ
  sin : ℚ → ℚ
  cos : ℚ → ℚ

/-- Rational stand-ins: `exp` is positive with `exp 0 = 1`; `sin`, `cos` are the
rational parametrisation of the circle, so `sin 0 = 0`, `cos 0 = 1` and both lie
in `[-1, 1]`. -/
def rationalBuiltins : Builtins where
  exp := fun x => if 0 ≤ x then 1 + x else 1 / (1 - x)
  sin := fun x => 2 * x / (1 + x * x)
  cos := fun x => (1 - x * x) / (1 + x * x)

/-- GLSL `mix(x, y, a) = x * (1 - a) + y * a` on floats. -/
def mix (x y a : ℚ) : ℚ := x * (1 - a) + y * a

/-- GLSL `mix` on `vec3` with a scalar weight. -/
def mix3 (u v : Vec3) (a : ℚ) : Vec3 := ⟨mix u.x v.x a, mix u.y v.y a, mix u.z v.z a⟩

/-- GLSL `mod(x, y) = x - y * floor(x / y)`. -/
def fmod (x y : ℚ) : ℚ := x - y * (Int.floor (x / y) : ℚ)

/-- The four-band palette body shared by the three sources; only the anchors differ. -/
def paletteOf (color1 color2 color3 color4 : Vec3) (t : ℚ) : Vec3 :=
  if t < 0.25 then mix3 color1 color2 (t * 4)
  else if t < 0.5 then mix3 color2 color3 ((t - 0.25) * 4)
  else if t < 0.75 then mix3 color3 color4 ((t - 0.5) * 4)
  else mix3 color4 color1 ((t - 0.75) * 4)

/-- A colour component range check: every channel in `[0, 1]`. -/
def Vec3.inUnit (v : Vec3) : Prop :=
  (0 ≤ v.x ∧ v.x ≤ 1) ∧ (0 ≤ v.y ∧ v.y ≤ 1) ∧ (0 ≤ v.z ∧ v.z ≤ 1)

/-- The written `FragColor` is a valid colour: r, g, b in `[0, 1]`, alpha `1`. -/
def Vec4.validColor (v : Vec4) : Prop :=
  (0 ≤ v.x ∧ v.x ≤ 1) ∧ (0 ≤ v.y ∧ v.y ≤ 1) ∧ (0 ≤ v.z ∧ v.z ≤ 1) ∧ v.w = 1

/-! ## `fractal.cpp` (Mandelbrot demo) -/

namespace Mandelbrot

/-- `const int MAX_ITER = 300;` -/
def MAX_ITER : ℕ := 300

/-- Anchor `color1`, #FEF9E1. -/
def color1 : Vec3 := ⟨0.996, 0.976, 0.882⟩
/-- Anchor `color2`, #E5D0AC. -/
def color2 : Vec3 := ⟨0.898, 0.816, 0.675⟩
/-- Anchor `color3`, #A31D1D. -/
def color3 : Vec3 := ⟨0.639, 0.114, 0.114⟩
/-- Anchor `color4`, #6D2323. -/
def color4 : Vec3 := ⟨0.427, 0.137, 0.137⟩

/-- `vec3 palette(float t)`. -/
def palette (t : ℚ) : Vec3 := paletteOf color1 color2 color3 color4 t

/-- `float mandelbrot(vec2 c)`: `z = c`, then the loop. -/
def mandelbrot (c : Vec2) : ℚ := escape MAX_ITER c c

/-- `float recursiveFractal(vec2 c, float scale, float time)`. -/
def recursiveFractal (c : Vec2) (scale : ℚ) (_time : ℚ) : ℚ :=
  0 + mandelbrot (c.muls scale) * 0.95
    + mandelbrot ((c.muls scale).muls 2) * 0.8
    + mandelbrot ((c.muls scale).muls 4) * 0.6
    + mandelbrot ((c.muls scale).muls 6) * 0.4
    + mandelbrot ((c.muls scale).muls 8) * 0.3
    + mandelbrot ((c.muls scale).muls 10) * 0.1

/-- The mapping expression of `main`:
`(fragCoord * iResolution - 0.5 * iResolution.xy) / (iResolution.y * 0.2) / zoom + center`. -/
def pixelToPlane (fragCoord iResolution : Vec2) (zoom : ℚ) (center : Vec2) : Vec2 :=
  ((((fragCoord.mul iResolution).sub (Vec2.smul 0.5 iResolution)).divs
    (iResolution.y * 0.2)).divs zoom).add center

/-- `zoom` of `main`: `exp(iTime * 0.13)`. -/
def mainZoom (B : Builtins) (iTime : ℚ) : ℚ := B.exp (iTime * 0.13)

/-- `center` of `main` after `center += 0.01 * vec2(sin(iTime*0.15), cos(iTime*0.1))`. -/
def mainCenter (B : Builtins) (iTime : ℚ) : Vec2 :=
  (Vec2.mk (-0.745428) 0.131825).add
    (Vec2.smul 0.01 ⟨B.sin (iTime * 0.15), B.cos (iTime * 0.1)⟩)

/-- The plane coordinate `c` of `main`. -/
def mainC (B : Builtins) (fragCoord iResolution : Vec2) (iTime : ℚ) : Vec2 :=
  pixelToPlane fragCoord iResolution (mainZoom B iTime) (mainCenter B iTime)

/-- `innerFractal` of `main`: `recursiveFractal(c, 2.0, iTime)`. -/
def innerFractal (c : Vec2) (iTime : ℚ) : ℚ := recursiveFractal c 2 iTime

/-- The colour of `main` from the plane coordinate `c` on. -/
def shade (c : Vec2) (iTime : ℚ) : Vec3 :=
  let t := mandelbrot c
  let color := palette t
  if t > 0.98 then
    let outlineFactor := fmod (innerFractal c iTime * 15) 1
    let innerColor := mix3 ⟨0.427, 0.137, 0.137⟩ ⟨0.996, 0.976, 0.882⟩ outlineFactor
    mix3 color innerColor 0.95
  else color

/-- The fragment shader `main`; the result is `FragColor`. -/
def main (B : Builtins) (fragCoord iResolution : Vec2) (iTime : ℚ) : Vec4 :=
  let color := shade (mainC B fragCoord iResolution iTime) iTime
  ⟨color.x, color.y, color.z, 1⟩

end Mandelbrot

/-! ## `julia.cpp` (Julia demo) -/

namespace Julia

/-- `const int MAX_ITER = 300;` -/
def MAX_ITER : ℕ := 300

/-- Anchor `color1 = vec3(0.11, 0, 0)`. -/
def color1 : Vec3 := ⟨0.11, 0, 0⟩
/-- Anchor `color2`, #E5D0AC. -/
def color2 : Vec3 := ⟨0.898, 0.816, 0.675⟩
/-- Anchor `color3`, #A31D1D. -/
def color3 : Vec3 := ⟨0.639, 0.114, 0.114⟩
/-- Anchor `color4`, #6D2323. -/
def color4 : Vec3 := ⟨0.427, 0.137, 0.137⟩

/-- `vec3 palette(float t)`. -/
def palette (t : ℚ) : Vec3 := paletteOf color1 color2 color3 color4 t

/-- `float julia(vec2 z, vec2 c)`. -/
def julia (z c : Vec2) : ℚ := escape MAX_ITER z c

/-- `float recursiveFractal(vec2 z, vec2 c, float scale, float time)`. -/
def recursiveFractal (z c : Vec2) (scale : ℚ) (_time : ℚ) : ℚ :=
  0 + julia (z.muls scale) c * 0.8
    + julia ((z.muls scale).muls 2) c * 0.5
    + julia ((z.muls scale).muls 4) c * 0.3
    + julia ((z.muls scale).muls 6) c * 0.1

/-- The mapping expression of `main`:
`(fragCoord * iResolution - 0.5 * iResolution.xy) / iResolution.y / zoom + center`. -/
def pixelToPlane (fragCoord iResolution : Vec2) (zoom : ℚ) (center : Vec2) : Vec2 :=
  ((((fragCoord.mul iResolution).sub (Vec2.smul 0.5 iResolution)).divs
    iResolution.y).divs zoom).add center

/-- `zoom` of `main`: `exp(iTime * 0.09)`. -/
def mainZoom (B : Builtins) (iTime : ℚ) : ℚ := B.exp (iTime * 0.09)

/-- The Julia constant `c` of `main`, animated. -/
def mainConst (B : Builtins) (iTime : ℚ) : Vec2 :=
  (Vec2.mk (-0.8) 0.156).add
    (Vec2.smul 0.02 ⟨B.sin (iTime * 0.15), B.cos (iTime * 0.1)⟩)

/-- The plane coordinate `z` of `main`; `center = vec2(0.0, 0.0)`. -/
def mainZ (B : Builtins) (fragCoord iResolution : Vec2) (iTime : ℚ) : Vec2 :=
  pixelToPlane fragCoord iResolution (mainZoom B iTime) ⟨0, 0⟩

/-- `innerFractal` of `main`: `recursiveFractal(z, c, 2.0, iTime)`. -/
def innerFractal (z c : Vec2) (iTime : ℚ) : ℚ := recursiveFractal z c 2 iTime

/-- The colour of `main` from the plane coordinate `z` and constant `c` on. -/
def shade (z c : Vec2) (iTime : ℚ) : Vec3 :=
  let t := julia z c
  let color := palette t
  if t > 0.98 then
    let outlineFactor := fmod (innerFractal z c iTime * 15) 1
    let innerColor := mix3 ⟨0.427, 0.137, 0.137⟩ ⟨0.996, 0.976, 0.882⟩ outlineFactor
    mix3 color innerColor 0.95
  else color

/-- The fragment shader `main`; the result is `FragColor`. -/
def main (B : Builtins) (fragCoord iResolution : Vec2) (iTime : ℚ) : Vec4 :=
  let color := shade (mainZ B fragCoord iResolution iTime) (mainConst B iTime) iTime
  ⟨color.x, color.y, color.z, 1⟩

end Julia

/-! ## `fractalf1.cpp` (blended demo) -/

namespace Blend

/-- `const int MAX_ITER = 256;` -/
def MAX_ITER : ℕ := 256

/-- Anchor `color1`, #FEF9E1. -/
def color1 : Vec3 := ⟨0.996, 0.976, 0.882⟩
/-- Anchor `color2`, #E5D0AC. -/
def color2 : Vec3 := ⟨0.898, 0.816, 0.675⟩
/-- Anchor `color3`, #A31D1D. -/
def color3 : Vec3 := ⟨0.639, 0.114, 0.114⟩
/-- Anchor `color4`, #6D2323. -/
def color4 : Vec3 := ⟨0.427, 0.137, 0.137⟩

/-- `vec3 palette(float t)`. -/
def palette (t : ℚ) : Vec3 := paletteOf color1 color2 color3 color4 t

/-- `float mandelbrot(vec2 c)`. -/
def mandelbrot (c : Vec2) : ℚ := escape MAX_ITER c c

/-- `float julia(vec2 c, vec2 z)` (the constant comes first in this file). -/
def julia (c z : Vec2) : ℚ := escape MAX_ITER z c

/-- `float smoothEaseInOut(float t)`. -/
def smoothEaseInOut (t : ℚ) : ℚ := t * t * (3 - 2 * t)

/-- `zoom` of `main`: the bounded ease in/out cycle. -/
def mainZoom (iTime : ℚ) : ℚ :=
  let totalTime : ℚ := 125
  let phase := fmod iTime totalTime / totalTime
  let zoomInDuration : ℚ := 80
  let zoomOutDuration : ℚ := 45
  let maxZoom : ℚ := 10
  let baseZoom : ℚ := 0.5
  if phase < zoomInDuration / totalTime then
    let zoomPhase := smoothEaseInOut (phase / (zoomInDuration / totalTime))
    baseZoom + zoomPhase * (maxZoom - baseZoom)
  else
    let zoomPhase :=
      smoothEaseInOut ((phase - zoomInDuration / totalTime) / (zoomOutDuration / totalTime))
    maxZoom - zoomPhase * (maxZoom - baseZoom)

/-- The mapping expression of `main`:
`(fragCoord * iResolution - 0.5 * iResolution.xy) / iResolution.y / zoom + center`. -/
def pixelToPlane (fragCoord iResolution : Vec2) (zoom : ℚ) (center : Vec2) : Vec2 :=
  ((((fragCoord.mul iResolution).sub (Vec2.smul 0.5 iResolution)).divs
    iResolution.y).divs zoom).add center

/-- The plane coordinate `z` of `main`; `center = iCenter`. -/
def mainZ (fragCoord iResolution : Vec2) (iTime : ℚ) (iCenter : Vec2) : Vec2 :=
  pixelToPlane fragCoord iResolution (mainZoom iTime) iCenter

/-- The blend weight `(blendFactor + 1.0) * 0.4` with `blendFactor = sin(iTime * 0.2)`. -/
def blendWeight (B : Builtins) (iTime : ℚ) : ℚ := (B.sin (iTime * 0.2) + 1) * 0.4

/-- `blendedVal` of `main` at plane coordinate `z`; the Julia constant is `(-0.8, 0.156)`. -/
def blendedVal (B : Builtins) (z : Vec2) (iTime : ℚ) : ℚ :=
  let c : Vec2 := ⟨-0.8, 0.156⟩
  let mandelbrotVal := mandelbrot z
  let juliaVal := julia c z
  mix mandelbrotVal juliaVal (blendWeight B iTime)

/-- The fragment shader `main`; the result is `FragColor`. -/
def main (B : Builtins) (fragCoord iResolution : Vec2) (iTime : ℚ) (iCenter : Vec2) : Vec4 :=
  let z := mainZ fragCoord iResolution iTime iCenter
  let color := palette (blendedVal B z iTime)
  ⟨color.x, color.y, color.z, 1⟩

end Blend

/-! ## The interior decoration as the specification words it -/

/-- The specification's interior-decoration value: the weighted sum of the
evaluator `eval` at the coordinate `p` scaled by the six factors
×1, ×2, ×4, ×6, ×8, ×10, with weights `w1 .. w6`. -/
def sixScaleSum (eval : Vec2 → ℚ) (w1 w2 w3 w4 w5 w6 : ℚ) (p : Vec2) : ℚ :=
  w1 * eval (p.muls 1) + w2 * eval (p.muls 2) + w3 * eval (p.muls 4)
    + w4 * eval (p.muls 6) + w5 * eval (p.muls 8) + w6 * eval (p.muls 10)

/-- Strictly decreasing weights. -/
def StrictlyDecreasing6 (w1 w2 w3 w4 w5 w6 : ℚ) : Prop :=
  w1 > w2 ∧ w2 > w3 ∧ w3 > w4 ∧ w4 > w5 ∧ w5 > w6

/-! ## Floating-point arithmetic as a parameter

The shaders compute in GLSL `float`.  Where a claim depends on rounding, the loop
and the zoom are taken over a record of the float operations; `exactOps` is the
exact arithmetic used above, `binary32` is IEEE 754 single precision (round to
nearest, ties to even, every operation rounded once).  Float values are the
rationals they denote; overflow to infinity and NaN are not modelled.
-/

/-- The float operations the loop and the zoom use.  `lengthGt z r` is the
outcome of the test `length(z) > r`. -/
structure FloatOps where
  add : ℚ → ℚ → ℚ
  sub : ℚ → ℚ → ℚ
  mul : ℚ → ℚ → ℚ
  div : ℚ → ℚ → ℚ
  lengthGt : Vec2 → ℚ → Bool

/-- Exact arithmetic: no rounding; `length(z) > r` as `r² < z.x² + z.y²`. -/
def exactOps : FloatOps where
  add := fun a b => a + b
  sub := fun a b => a - b
  mul := fun a b => a * b
  div := fun a b => a / b
  lengthGt := fun z r => decide (r * r < z.lengthSq)

/-- Floor of `log2 n` by repeated halving; fuel `n` is always enough. -/
def log2Fuel : ℕ → ℕ → ℕ
  | 0, _ => 0
  | fuel + 1, n => if n < 2 then 0 else log2Fuel fuel (n / 2) + 1

/-- Floor of `log2 n` (and `0` for `n = 0`). -/
def natLog2 (n : ℕ) : ℕ := log2Fuel n n

/-- Floor of `log2 |x|` for a nonzero rational: the binary exponent of `x`. -/
def ilog2 (x : ℚ) : ℤ :=
  let k : ℤ := (natLog2 x.num.natAbs : ℤ) - (natLog2 x.den : ℤ)
  if (2 : ℚ) ^ k ≤ |x| then k else k - 1

/-- Nearest integer, ties to the even one. -/
def roundEven (q : ℚ) : ℤ :=
  let f : ℤ := Int.floor q
  let r : ℚ := q - f
  if r < 1 / 2 then f
  else if 1 / 2 < r then f + 1
  else if f % 2 = 0 then f else f + 1

/-- Rounding to binary32: nearest multiple of the unit in the last place
`2 ^ (exponent - 23)` (24-bit significand, least unit `2 ^ (-149)`), ties to even. -/
def round32 (x : ℚ) : ℚ :=
  if x = 0 then 0
  else
    let e : ℤ := max (ilog2 x - 23) (-149)
    (roundEven (x / (2 : ℚ) ^ e) : ℚ) * (2 : ℚ) ^ e

/-- Newton iteration for the integer square root, from a guess above the root. -/
def isqrtAux : ℕ → ℕ → ℕ → ℕ
  | 0, _, g => g
  | fuel + 1, n, g =>
    let g2 := (g + n / g) / 2
    if g2 < g then isqrtAux fuel n g2 else g

/-- Floor of the square root of `n`. -/
def isqrt (n : ℕ) : ℕ :=
  if n = 0 then 0 else isqrtAux n n (2 ^ (natLog2 n / 2 + 1))

/-- Correctly rounded binary32 square root of a nonnegative float. -/
def sqrt32 (s : ℚ) : ℚ :=
  if s ≤ 0 then 0
  else
    let e : ℤ := max (Int.fdiv (ilog2 s) 2 - 23) (-149)
    let t : ℚ := s / (2 : ℚ) ^ (2 * e)
    let m : ℕ := isqrt (Int.toNat (Int.floor t))
    let mid : ℚ := (m : ℚ) + 1 / 2
    let r : ℤ :=
      if t < mid * mid then m
      else if mid * mid < t then m + 1
      else if m % 2 = 0 then m else m + 1
    (r : ℚ) * (2 : ℚ) ^ e

/-- IEEE 754 binary32: each operation is the exact result rounded once;
`length(z)` is `sqrt(z.x * z.x + z.y * z.y)`. -/
def binary32 : FloatOps where
  add := fun a b => round32 (a + b)
  sub := fun a b => round32 (a - b)
  mul := fun a b => round32 (a * b)
  div := fun a b => round32 (a / b)
  lengthGt := fun z r =>
    decide (r < sqrt32 (round32 (round32 (z.x * z.x) + round32 (z.y * z.y))))

/-- One recurrence step `z = vec2(z.x*z.x - z.y*z.y, 2.0*z.x*z.y) + c` in the
arithmetic `A`. -/
def stepWith (A : FloatOps) (z c : Vec2) : Vec2 :=
  ⟨A.add (A.sub (A.mul z.x z.x) (A.mul z.y z.y)) c.x,
    A.add (A.mul (A.mul 2 z.x) z.y) c.y⟩

/-- The `for` loop in the arithmetic `A`, with fuel; the exit test is
`length(z) > 2.0`. -/
def escapeLoopWith (A : FloatOps) (MAX_ITER : ℕ) (c : Vec2) : ℕ → LoopState → LoopState
  | 0, s => s
  | fuel + 1, s =>
    if s.iter < MAX_ITER then
      if A.lengthGt s.z 2 = true then s
      else escapeLoopWith A MAX_ITER c fuel ⟨stepWith A s.z c, s.iter + 1, s.steps + 1⟩
    else s

/-- Final loop state from seed `z0` in the arithmetic `A`. -/
def escapeRunWith (A : FloatOps) (MAX_ITER : ℕ) (z0 c : Vec2) : LoopState :=
  escapeLoopWith A MAX_ITER c MAX_ITER ⟨z0, 0, 0⟩

/-- The evaluator in the arithmetic `A`: `iter / MAX_ITER` after the loop (the
counter and the cap are converted to float exactly). -/
def escapeWith (A : FloatOps) (MAX_ITER : ℕ) (z0 c : Vec2) : ℚ :=
  A.div ((escapeRunWith A MAX_ITER z0 c).iter : ℚ) (MAX_ITER : ℚ)

/-- The computed orbit: `z_0 = seed`, `z_{n+1}` the value the arithmetic `A`
gives for `z_n² + c`. -/
def orbitWith (A : FloatOps) (z0 c : Vec2) : ℕ → Vec2
  | 0 => z0
  | n + 1 => stepWith A (orbitWith A z0 c n) c

/-- What holds of the final state `s` of a loop in the arithmetic `A` entered at
orbit index `i`. -/
def LoopPostWith (A : FloatOps) (N : ℕ) (z0 c : Vec2) (i : ℕ) (s : LoopState) : Prop :=
  s.steps = s.iter ∧ i ≤ s.iter ∧ s.iter ≤ N ∧ s.z = orbitWith A z0 c s.iter ∧
    (∀ n, i ≤ n → n < s.iter → A.lengthGt (orbitWith A z0 c n) 2 = false) ∧
    (s.iter < N → A.lengthGt (orbitWith A z0 c s.iter) 2 = true)

/-- `fractal.cpp`, `float mandelbrot(vec2 c)` in the arithmetic `A`. -/
def Mandelbrot.mandelbrotWith (A : FloatOps) (c : Vec2) : ℚ :=
  escapeWith A Mandelbrot.MAX_ITER c c

/-- `julia.cpp`, `float julia(vec2 z, vec2 c)` in the arithmetic `A`. -/
def Julia.juliaWith (A : FloatOps) (z c : Vec2) : ℚ :=
  escapeWith A Julia.MAX_ITER z c

/-- `fractalf1.cpp`, `float mandelbrot(vec2 c)` in the arithmetic `A`. -/
def Blend.mandelbrotWith (A : FloatOps) (c : Vec2) : ℚ :=
  escapeWith A Blend.MAX_ITER c c

/-- `fractalf1.cpp`, `float julia(vec2 c, vec2 z)` in the arithmetic `A`. -/
def Blend.juliaWith (A : FloatOps) (c z : Vec2) : ℚ :=
  escapeWith A Blend.MAX_ITER z c

/-- GLSL `mod(x, y) = x - y * floor(x / y)` in the arithmetic `A`. -/
def fmodWith (A : FloatOps) (x y : ℚ) : ℚ :=
  A.sub x (A.mul y (Int.floor (A.div x y) : ℚ))

/-- `fractalf1.cpp`, `smoothEaseInOut`: `t * t * (3.0 - 2.0 * t)` in the arithmetic `A`. -/
def Blend.smoothEaseInOutWith (A : FloatOps) (t : ℚ) : ℚ :=
  A.mul (A.mul t t) (A.sub 3 (A.mul 2 t))

/-- `fractalf1.cpp`, `zoom` of `main` in the arithmetic `A`. -/
def Blend.mainZoomWith (A : FloatOps) (iTime : ℚ) : ℚ :=
  let totalTime : ℚ := 125
  let phase := A.div (fmodWith A iTime totalTime) totalTime
  let zoomInDuration : ℚ := 80
  let zoomOutDuration : ℚ := 45
  let maxZoom : ℚ := 10
  let baseZoom : ℚ := 0.5
  if phase < A.div zoomInDuration totalTime then
    let zoomPhase :=
      Blend.smoothEaseInOutWith A (A.div phase (A.div zoomInDuration totalTime))
    A.add baseZoom (A.mul zoomPhase (A.sub maxZoom baseZoom))
  else
    let zoomPhase :=
      Blend.smoothEaseInOutWith A
        (A.div (A.sub phase (A.div zoomInDuration totalTime))
          (A.div zoomOutDuration totalTime))
    A.sub maxZoom (A.mul zoomPhase (A.sub maxZoom baseZoom))

/-! ## Loop lemmas -/

/-- Over the reals, `length(z) > 2` is the squared test. -/
theorem escaped_iff_sqrt (z : Vec2) :
    escaped z ↔ (2 : ℝ) < Real.sqrt ((z.x : ℝ) * z.x + (z.y : ℝ) * z.y) := by
  have h4 : (2 : ℝ) = Real.sqrt (2 * 2) := by
    rw [Real.sqrt_mul_self (by norm_num)]
  have hnn : (0 : ℝ) ≤ 2 * 2 := by norm_num
  rw [h4, Real.sqrt_lt_sqrt_iff hnn]
  unfold escaped Vec2.lengthSq
  constructor
  · intro h
    have : ((2 * 2 : ℚ) : ℝ) < ((z.x * z.x + z.y * z.y : ℚ) : ℝ) := by exact_mod_cast h
    push_cast at this
    simpa using this
  · intro h
    have : ((2 * 2 : ℚ) : ℝ) < ((z.x * z.x + z.y * z.y : ℚ) : ℝ) := by
      push_cast
      simpa using h
    exact_mod_cast this

/-- Invariant of the loop started on the orbit at index `i` with enough fuel. -/
theorem escapeLoop_spec (N : ℕ) (z0 c : Vec2) :
    ∀ (fuel i : ℕ), i + fuel = N →
      LoopPost N z0 c i (escapeLoop N c fuel ⟨orbit z0 c i, i, i⟩) := by
  intro fuel
  induction fuel with
  | zero =>
    intro i hi
    have hs : escapeLoop N c 0 ⟨orbit z0 c i, i, i⟩ = ⟨orbit z0 c i, i, i⟩ := rfl
    rw [hs]
    refine ⟨rfl, le_refl _, ?_, rfl, ?_, ?_⟩
    · show i ≤ N
      omega
    · intro n h1 h2
      have h2 : n < i := h2
      omega
    · intro h
      have h : i < N := h
      omega
  | succ fuel ih =>
    intro i hi
    have hlt : i < N := by omega
    by_cases he : escaped (orbit z0 c i)
    · have hs : escapeLoop N c (fuel + 1) ⟨orbit z0 c i, i, i⟩ = ⟨orbit z0 c i, i, i⟩ := by
        simp [escapeLoop, hlt, he]
      rw [hs]
      refine ⟨rfl, le_refl _, ?_, rfl, ?_, ?_⟩
      · show i ≤ N
        omega
      · intro n h1 h2
        have h2 : n < i := h2
        omega
      · intro _
        exact he
    · have hs : escapeLoop N c (fuel + 1) ⟨orbit z0 c i, i, i⟩
          = escapeLoop N c fuel ⟨orbit z0 c (i + 1), i + 1, i + 1⟩ := by
        simp [escapeLoop, hlt, he, orbit]
      rw [hs]
      obtain ⟨h1, h2, h3, h4, h5, h6⟩ := ih (i + 1) (by omega)
      refine ⟨h1, by omega, h3, h4, ?_, h6⟩
      intro n hn1 hn2
      by_cases hni : n = i
      · subst hni
        exact he
      · exact h5 n (by omega) hn2

/-- The run from the seed: loop post-condition at index 0. -/
theorem escapeRun_spec (N : ℕ) (z0 c : Vec2) : LoopPost N z0 c 0 (escapeRun N z0 c) :=
  escapeLoop_spec N z0 c N 0 (by omega)

/-- The evaluator's value is `1` exactly when the counter reached the cap. -/
theorem escape_eq_one_iff (N : ℕ) (z0 c : Vec2) (hN : 1 ≤ N) :
    escape N z0 c = 1 ↔ (escapeRun N z0 c).iter = N := by
  have hN0 : (N : ℚ) ≠ 0 := by
    have : (0 : ℚ) < N := by exact_mod_cast hN
    exact ne_of_gt this
  unfold escape
  rw [div_eq_one_iff_eq hN0]
  exact Nat.cast_inj

/-- The evaluator's value lies in `[0, 1]`, whatever the cap. -/
theorem escape_mem_unit (N : ℕ) (z0 c : Vec2) :
    0 ≤ escape N z0 c ∧ escape N z0 c ≤ 1 := by
  obtain ⟨_, _, h3, _, _, _⟩ := escapeRun_spec N z0 c
  unfold escape
  constructor
  · positivity
  · apply div_le_one_of_le₀
    · exact_mod_cast h3
    · positivity

/-- An orbit that never leaves the disc of radius 2 saturates the evaluator. -/
theorem escape_eq_one_of_bounded (N : ℕ) (z0 c : Vec2) (hN : 1 ≤ N)
    (h : ∀ n, n < N → ¬ escaped (orbit z0 c n)) : escape N z0 c = 1 := by
  rw [escape_eq_one_iff N z0 c hN]
  obtain ⟨_, _, h3, _, _, h6⟩ := escapeRun_spec N z0 c
  by_contra hne
  have hlt : (escapeRun N z0 c).iter < N := lt_of_le_of_ne h3 hne
  exact h _ hlt (h6 hlt)

/-- A seed outside the disc of radius 2 stops the loop at once. -/
theorem escapeRun_of_escaped (N : ℕ) (z0 c : Vec2) (h : escaped z0) :
    escapeRun N z0 c = ⟨z0, 0, 0⟩ := by
  unfold escapeRun
  cases N with
  | zero => rfl
  | succ n => simp [escapeLoop, h]

/-- The orbit of the origin under `z² + 0` stays at the origin. -/
theorem orbit_origin (n : ℕ) : orbit ⟨0, 0⟩ ⟨0, 0⟩ n = ⟨0, 0⟩ := by
  induction n with
  | zero => rfl
  | succ n ih => simp [orbit, ih, step, Vec2.add]

/-! ## Claims on the escape-time evaluator -/

/-- C2: for all plane coordinates and map constants the evaluator performs at
most `iteration_cap` recurrence steps, leaves the loop by its guard or its
`break` (the fuel suffices), and returns a value in `[0, 1]`; this holds for
every cap, so for `mandelbrot` and `julia` of every demo (cap 300 or 256). -/
theorem C2_escape_terminates_in_unit (z c : Vec2) :
    (∀ N : ℕ, (escapeRun N z c).steps ≤ N ∧
      ((escapeRun N z c).iter < N → escaped (escapeRun N z c).z) ∧
      0 ≤ escape N z c ∧ escape N z c ≤ 1) ∧
    ((escapeRun Mandelbrot.MAX_ITER z z).steps ≤ 300 ∧
      0 ≤ Mandelbrot.mandelbrot z ∧ Mandelbrot.mandelbrot z ≤ 1) ∧
    ((escapeRun Julia.MAX_ITER z c).steps ≤ 300 ∧
      0 ≤ Julia.julia z c ∧ Julia.julia z c ≤ 1) ∧
    ((escapeRun Blend.MAX_ITER z z).steps ≤ 256 ∧
      0 ≤ Blend.mandelbrot z ∧ Blend.mandelbrot z ≤ 1) ∧
    ((escapeRun Blend.MAX_ITER z c).steps ≤ 256 ∧
      0 ≤ Blend.julia c z ∧ Blend.julia c z ≤ 1) := by
  have key : ∀ (N : ℕ) (a b : Vec2), (escapeRun N a b).steps ≤ N ∧
      ((escapeRun N a b).iter < N → escaped (escapeRun N a b).z) ∧
      0 ≤ escape N a b ∧ escape N a b ≤ 1 := by
    intro N a b
    obtain ⟨h1, _, h3, h4, _, h6⟩ := escapeRun_spec N a b
    refine ⟨by omega, ?_, escape_mem_unit N a b⟩
    intro hlt
    rw [h4]
    exact h6 hlt
  refine ⟨fun N => key N z c, ?_, ?_, ?_, ?_⟩
  · exact ⟨(key 300 z z).1, (key 300 z z).2.2⟩
  · exact ⟨(key 300 z c).1, (key 300 z c).2.2⟩
  · exact ⟨(key 256 z z).1, (key 256 z z).2.2⟩
  · exact ⟨(key 256 z c).1, (key 256 z c).2.2⟩

/-- C3: for every cap `N ≥ 1` the evaluator with seed `(0,0)` and constant
`(0,0)` returns exactly `1`: every iterate stays at the origin, the loop never
breaks and the count saturates; so `mandelbrot(vec2(0,0)) = 1` in both sources
that define it. -/
theorem C3_origin_saturates (N : ℕ) (hN : 1 ≤ N) :
    escape N ⟨0, 0⟩ ⟨0, 0⟩ = 1 ∧ (escapeRun N ⟨0, 0⟩ ⟨0, 0⟩).iter = N ∧
      (∀ n, orbit ⟨0, 0⟩ ⟨0, 0⟩ n = ⟨0, 0⟩) ∧
      Mandelbrot.mandelbrot ⟨0, 0⟩ = 1 ∧ Blend.mandelbrot ⟨0, 0⟩ = 1 := by
  have hb : ∀ M : ℕ, ∀ n, n < M → ¬ escaped (orbit ⟨0, 0⟩ ⟨0, 0⟩ n) := by
    intro M n _
    rw [orbit_origin]
    simp [escaped, Vec2.lengthSq]
  have h1 := escape_eq_one_of_bounded N ⟨0, 0⟩ ⟨0, 0⟩ hN (hb N)
  refine ⟨h1, (escape_eq_one_iff N _ _ hN).1 h1, orbit_origin, ?_, ?_⟩
  · exact escape_eq_one_of_bounded 300 ⟨0, 0⟩ ⟨0, 0⟩ (by norm_num) (hb 300)
  · exact escape_eq_one_of_bounded 256 ⟨0, 0⟩ ⟨0, 0⟩ (by norm_num) (hb 256)

/-- C3 at cap 1. -/
theorem C3_origin_saturates_witness :
    1 ≤ 1 ∧ escape 1 ⟨0, 0⟩ ⟨0, 0⟩ = 1 ∧ (escapeRun 1 ⟨0, 0⟩ ⟨0, 0⟩).iter = 1 ∧
      (∀ n, orbit ⟨0, 0⟩ ⟨0, 0⟩ n = ⟨0, 0⟩) ∧
      Mandelbrot.mandelbrot ⟨0, 0⟩ = 1 ∧ Blend.mandelbrot ⟨0, 0⟩ = 1 :=
  ⟨le_refl 1, C3_origin_saturates 1 (le_refl 1)⟩

/-! ## Colour lemmas -/

/-- A convex combination of two values of `[0, 1]` is in `[0, 1]`. -/
theorem mix_mem_unit (x y a : ℚ) (hx : 0 ≤ x ∧ x ≤ 1) (hy : 0 ≤ y ∧ y ≤ 1)
    (ha : 0 ≤ a ∧ a ≤ 1) : 0 ≤ mix x y a ∧ mix x y a ≤ 1 := by
  unfold mix
  have h1a : 0 ≤ 1 - a := by linarith [ha.2]
  have p1 : 0 ≤ x * (1 - a) := mul_nonneg hx.1 h1a
  have p2 : 0 ≤ y * a := mul_nonneg hy.1 ha.1
  have q1 : x * (1 - a) ≤ 1 * (1 - a) := mul_le_mul_of_nonneg_right hx.2 h1a
  have q2 : y * a ≤ 1 * a := mul_le_mul_of_nonneg_right hy.2 ha.1
  constructor
  · linarith
  · linarith

/-- `mix` of two colours of the unit cube stays in the unit cube. -/
theorem mix3_inUnit (u v : Vec3) (a : ℚ) (hu : u.inUnit) (hv : v.inUnit)
    (ha : 0 ≤ a ∧ a ≤ 1) : (mix3 u v a).inUnit :=
  ⟨mix_mem_unit _ _ _ hu.1 hv.1 ha, mix_mem_unit _ _ _ hu.2.1 hv.2.1 ha,
    mix_mem_unit _ _ _ hu.2.2 hv.2.2 ha⟩

/-- The palette maps `[0, 1]` into the unit cube when its anchors are in it. -/
theorem paletteOf_inUnit (c1 c2 c3 c4 : Vec3) (t : ℚ) (h1 : c1.inUnit) (h2 : c2.inUnit)
    (h3 : c3.inUnit) (h4 : c4.inUnit) (ht : 0 ≤ t ∧ t ≤ 1) :
    (paletteOf c1 c2 c3 c4 t).inUnit := by
  obtain ⟨ht0, ht1⟩ := ht
  unfold paletteOf
  split_ifs with ha hb hc
  · apply mix3_inUnit _ _ _ h1 h2
    norm_num at ha
    constructor <;> linarith
  · apply mix3_inUnit _ _ _ h2 h3
    norm_num at ha hb ⊢
    constructor <;> linarith
  · apply mix3_inUnit _ _ _ h3 h4
    norm_num at hb hc ⊢
    constructor <;> linarith
  · apply mix3_inUnit _ _ _ h4 h1
    norm_num at hc ⊢
    constructor <;> linarith

/-- `mod(x, 1.0)` is the fractional part, in `[0, 1)`. -/
theorem fmod_one_mem (x : ℚ) : 0 ≤ fmod x 1 ∧ fmod x 1 < 1 := by
  unfold fmod
  rw [div_one, one_mul]
  constructor
  · linarith [Int.floor_le x]
  · linarith [Int.lt_floor_add_one x]

/-- The anchors of the Mandelbrot demo are colours. -/
theorem mandelbrot_anchors_inUnit :
    Mandelbrot.color1.inUnit ∧ Mandelbrot.color2.inUnit ∧ Mandelbrot.color3.inUnit ∧
      Mandelbrot.color4.inUnit := by
  simp only [Vec3.inUnit, Mandelbrot.color1, Mandelbrot.color2, Mandelbrot.color3,
    Mandelbrot.color4]
  norm_num

/-- The anchors of the Julia demo are colours. -/
theorem julia_anchors_inUnit :
    Julia.color1.inUnit ∧ Julia.color2.inUnit ∧ Julia.color3.inUnit ∧
      Julia.color4.inUnit := by
  simp only [Vec3.inUnit, Julia.color1, Julia.color2, Julia.color3, Julia.color4]
  norm_num

/-- The anchors of the blended demo are colours. -/
theorem blend_anchors_inUnit :
    Blend.color1.inUnit ∧ Blend.color2.inUnit ∧ Blend.color3.inUnit ∧
      Blend.color4.inUnit := by
  simp only [Vec3.inUnit, Blend.color1, Blend.color2, Blend.color3, Blend.color4]
  norm_num

/-- The interior colour `mix(vec3(0.427,..), vec3(0.996,..), outlineFactor)` is a colour. -/
theorem innerColor_inUnit (x : ℚ) :
    (mix3 ⟨0.427, 0.137, 0.137⟩ ⟨0.996, 0.976, 0.882⟩ (fmod x 1)).inUnit := by
  have hf := fmod_one_mem x
  apply mix3_inUnit
  · simp only [Vec3.inUnit]; norm_num
  · simp only [Vec3.inUnit]; norm_num
  · exact ⟨hf.1, le_of_lt hf.2⟩

/-- Every pixel colour of the Mandelbrot demo is in the unit cube. -/
theorem mandelbrot_shade_inUnit (c : Vec2) (iTime : ℚ) :
    (Mandelbrot.shade c iTime).inUnit := by
  obtain ⟨a1, a2, a3, a4⟩ := mandelbrot_anchors_inUnit
  have hp : (Mandelbrot.palette (Mandelbrot.mandelbrot c)).inUnit :=
    paletteOf_inUnit _ _ _ _ _ a1 a2 a3 a4 (escape_mem_unit _ _ _)
  unfold Mandelbrot.shade
  simp only
  split_ifs
  · exact mix3_inUnit _ _ _ hp (innerColor_inUnit _) (by norm_num)
  · exact hp

/-- Every pixel colour of the Julia demo is in the unit cube. -/
theorem julia_shade_inUnit (z c : Vec2) (iTime : ℚ) :
    (Julia.shade z c iTime).inUnit := by
  obtain ⟨a1, a2, a3, a4⟩ := julia_anchors_inUnit
  have hp : (Julia.palette (Julia.julia z c)).inUnit :=
    paletteOf_inUnit _ _ _ _ _ a1 a2 a3 a4 (escape_mem_unit _ _ _)
  unfold Julia.shade
  simp only
  split_ifs
  · exact mix3_inUnit _ _ _ hp (innerColor_inUnit _) (by norm_num)
  · exact hp

/-- The blend weight lies in `[0, 0.8]` when `sin` takes values in `[-1, 1]`. -/
theorem blendWeight_mem (B : Builtins) (hsin : ∀ x, -1 ≤ B.sin x ∧ B.sin x ≤ 1)
    (iTime : ℚ) : 0 ≤ Blend.blendWeight B iTime ∧ Blend.blendWeight B iTime ≤ 0.8 := by
  obtain ⟨h1, h2⟩ := hsin (iTime * 0.2)
  unfold Blend.blendWeight
  norm_num
  constructor <;> linarith

/-- The blended scalar lies in `[0, 1]`. -/
theorem blendedVal_mem (B : Builtins) (hsin : ∀ x, -1 ≤ B.sin x ∧ B.sin x ≤ 1)
    (z : Vec2) (iTime : ℚ) :
    0 ≤ Blend.blendedVal B z iTime ∧ Blend.blendedVal B z iTime ≤ 1 := by
  obtain ⟨w0, w1⟩ := blendWeight_mem B hsin iTime
  unfold Blend.blendedVal
  apply mix_mem_unit
  · exact escape_mem_unit _ _ _
  · exact escape_mem_unit _ _ _
  · refine ⟨w0, le_trans w1 (by norm_num)⟩

/-- The rational stand-in for `sin` takes values in `[-1, 1]`. -/
theorem rationalBuiltins_sin_mem (x : ℚ) :
    -1 ≤ rationalBuiltins.sin x ∧ rationalBuiltins.sin x ≤ 1 := by
  have hpos : 0 < 1 + x * x := by nlinarith [mul_self_nonneg x]
  show -1 ≤ 2 * x / (1 + x * x) ∧ 2 * x / (1 + x * x) ≤ 1
  constructor
  · rw [le_div_iff₀ hpos]
    nlinarith [mul_self_nonneg (x + 1)]
  · rw [div_le_iff₀ hpos]
    nlinarith [mul_self_nonneg (x - 1)]

/-- Between two numbers: `mix` with a weight of `[0, 1]` stays between its ends. -/
theorem mix_between (x y a : ℚ) (ha : 0 ≤ a ∧ a ≤ 1) :
    min x y ≤ mix x y a ∧ mix x y a ≤ max x y := by
  unfold mix
  have h1a : 0 ≤ 1 - a := by linarith [ha.2]
  have e : x * (1 - a) + y * a = x + a * (y - x) := by ring
  have e2 : x * (1 - a) + y * a = y + (1 - a) * (x - y) := by ring
  rcases le_total x y with hxy | hxy
  · rw [min_eq_left hxy, max_eq_right hxy]
    constructor
    · rw [e]
      have : 0 ≤ a * (y - x) := mul_nonneg ha.1 (by linarith)
      linarith
    · rw [e2]
      have : (1 - a) * (x - y) ≤ 0 := mul_nonpos_of_nonneg_of_nonpos h1a (by linarith)
      linarith
  · rw [min_eq_right hxy, max_eq_left hxy]
    constructor
    · rw [e2]
      have : 0 ≤ (1 - a) * (x - y) := mul_nonneg h1a (by linarith)
      linarith
    · rw [e]
      have : a * (y - x) ≤ 0 := mul_nonpos_of_nonneg_of_nonpos ha.1 (by linarith)
      linarith

/-- The centre pixel `fragCoord = (0.5, 0.5)` maps to `center`, whatever the
resolution and zoom. -/
theorem pixelToPlane_center (iResolution : Vec2) (zoom : ℚ) (center : Vec2) :
    Mandelbrot.pixelToPlane ⟨0.5, 0.5⟩ iResolution zoom center = center := by
  simp [Mandelbrot.pixelToPlane, Vec2.mul, Vec2.sub, Vec2.smul, Vec2.divs, Vec2.add]

/-! ## Claims on the scene composer -/

/-- C5: for every pixel position, resolution and elapsed time (and every camera
offset in the blended demo) the colour written to `FragColor` by each of the
three shaders has r, g, b in `[0, 1]` and alpha exactly `1`; interior pixels of
the Mandelbrot and Julia demos (escape scalar above 0.98) get
`mix(palette(t), innerColor, 0.95)`, which is in range as well.  `sin` is
assumed to take values in `[-1, 1]`. -/
theorem C5_fragColor_valid (B : Builtins) (hsin : ∀ x, -1 ≤ B.sin x ∧ B.sin x ≤ 1)
    (fragCoord iResolution : Vec2) (iTime : ℚ) (iCenter : Vec2) :
    (Mandelbrot.main B fragCoord iResolution iTime).validColor ∧
    (Julia.main B fragCoord iResolution iTime).validColor ∧
    (Blend.main B fragCoord iResolution iTime iCenter).validColor ∧
    (∀ c : Vec2, Mandelbrot.mandelbrot c > 0.98 →
      Mandelbrot.shade c iTime =
        mix3 (Mandelbrot.palette (Mandelbrot.mandelbrot c))
          (mix3 ⟨0.427, 0.137, 0.137⟩ ⟨0.996, 0.976, 0.882⟩
            (fmod (Mandelbrot.recursiveFractal c 2 iTime * 15) 1)) 0.95 ∧
      (Mandelbrot.shade c iTime).inUnit) ∧
    (∀ z c : Vec2, Julia.julia z c > 0.98 →
      Julia.shade z c iTime =
        mix3 (Julia.palette (Julia.julia z c))
          (mix3 ⟨0.427, 0.137, 0.137⟩ ⟨0.996, 0.976, 0.882⟩
            (fmod (Julia.recursiveFractal z c 2 iTime * 15) 1)) 0.95 ∧
      (Julia.shade z c iTime).inUnit) := by
  refine ⟨?_, ?_, ?_, ?_, ?_⟩
  · obtain ⟨h1, h2, h3⟩ := mandelbrot_shade_inUnit
      (Mandelbrot.mainC B fragCoord iResolution iTime) iTime
    exact ⟨h1, h2, h3, rfl⟩
  · obtain ⟨h1, h2, h3⟩ := julia_shade_inUnit
      (Julia.mainZ B fragCoord iResolution iTime) (Julia.mainConst B iTime) iTime
    exact ⟨h1, h2, h3, rfl⟩
  · obtain ⟨a1, a2, a3, a4⟩ := blend_anchors_inUnit
    obtain ⟨h1, h2, h3⟩ := paletteOf_inUnit _ _ _ _ _ a1 a2 a3 a4
      (blendedVal_mem B hsin (Blend.mainZ fragCoord iResolution iTime iCenter) iTime)
    exact ⟨h1, h2, h3, rfl⟩
  · intro c hc
    refine ⟨?_, mandelbrot_shade_inUnit c iTime⟩
    simp only [Mandelbrot.shade, Mandelbrot.innerFractal, if_pos hc]
  · intro z c hc
    refine ⟨?_, julia_shade_inUnit z c iTime⟩
    simp only [Julia.shade, Julia.innerFractal, if_pos hc]

/-- C5 at the stand-in built-ins, centre pixel of an 800 x 600 frame, time 0. -/
theorem C5_fragColor_valid_witness :
    (∀ x, -1 ≤ rationalBuiltins.sin x ∧ rationalBuiltins.sin x ≤ 1) ∧
    (Mandelbrot.main rationalBuiltins ⟨0.5, 0.5⟩ ⟨800, 600⟩ 0).validColor ∧
    (Julia.main rationalBuiltins ⟨0.5, 0.5⟩ ⟨800, 600⟩ 0).validColor ∧
    (Blend.main rationalBuiltins ⟨0.5, 0.5⟩ ⟨800, 600⟩ 0 ⟨0.15, 0⟩).validColor :=
  have h := C5_fragColor_valid rationalBuiltins rationalBuiltins_sin_mem
    ⟨0.5, 0.5⟩ ⟨800, 600⟩ 0 ⟨0.15, 0⟩
  ⟨rationalBuiltins_sin_mem, h.1, h.2.1, h.2.2.1⟩

/-- C6: the palette is continuous at each band boundary `t ∈ {0.25, 0.5, 0.75}`:
the lower band's formula at the boundary (fraction 1) and the upper band's
formula at the boundary (fraction 0) both give the shared anchor, and so does
`palette` itself: `palette(0.25) = color2`, `palette(0.5) = color3`,
`palette(0.75) = color4`, for any anchors and so in each source. -/
theorem C6_palette_continuous_at_band_edges (c1 c2 c3 c4 : Vec3) :
    (mix3 c1 c2 (0.25 * 4) = c2 ∧ mix3 c2 c3 ((0.25 - 0.25) * 4) = c2 ∧
      paletteOf c1 c2 c3 c4 0.25 = c2) ∧
    (mix3 c2 c3 ((0.5 - 0.25) * 4) = c3 ∧ mix3 c3 c4 ((0.5 - 0.5) * 4) = c3 ∧
      paletteOf c1 c2 c3 c4 0.5 = c3) ∧
    (mix3 c3 c4 ((0.75 - 0.5) * 4) = c4 ∧ mix3 c4 c1 ((0.75 - 0.75) * 4) = c4 ∧
      paletteOf c1 c2 c3 c4 0.75 = c4) ∧
    (Mandelbrot.palette 0.25 = Mandelbrot.color2 ∧ Mandelbrot.palette 0.5 = Mandelbrot.color3 ∧
      Mandelbrot.palette 0.75 = Mandelbrot.color4) ∧
    (Julia.palette 0.25 = Julia.color2 ∧ Julia.palette 0.5 = Julia.color3 ∧
      Julia.palette 0.75 = Julia.color4) ∧
    (Blend.palette 0.25 = Blend.color2 ∧ Blend.palette 0.5 = Blend.color3 ∧
      Blend.palette 0.75 = Blend.color4) := by
  have hone : ∀ u v : Vec3, ∀ a : ℚ, a = 1 → mix3 u v a = v := by
    intro u v a ha
    subst ha
    simp [mix3, mix]
  have hzero : ∀ u v : Vec3, ∀ a : ℚ, a = 0 → mix3 u v a = u := by
    intro u v a ha
    subst ha
    simp [mix3, mix]
  have p1 : ∀ a b c d : Vec3, paletteOf a b c d 0.25 = b := by
    intro a b c d
    unfold paletteOf
    rw [if_neg (by norm_num), if_pos (by norm_num)]
    exact hzero _ _ _ (by norm_num)
  have p2 : ∀ a b c d : Vec3, paletteOf a b c d 0.5 = c := by
    intro a b c d
    unfold paletteOf
    rw [if_neg (by norm_num), if_neg (by norm_num), if_pos (by norm_num)]
    exact hzero _ _ _ (by norm_num)
  have p3 : ∀ a b c d : Vec3, paletteOf a b c d 0.75 = d := by
    intro a b c d
    unfold paletteOf
    rw [if_neg (by norm_num), if_neg (by norm_num), if_neg (by norm_num)]
    exact hzero _ _ _ (by norm_num)
  refine ⟨⟨hone _ _ _ (by norm_num), hzero _ _ _ (by norm_num), p1 _ _ _ _⟩,
    ⟨hone _ _ _ (by norm_num), hzero _ _ _ (by norm_num), p2 _ _ _ _⟩,
    ⟨hone _ _ _ (by norm_num), hzero _ _ _ (by norm_num), p3 _ _ _ _⟩,
    ⟨p1 _ _ _ _, p2 _ _ _ _, p3 _ _ _ _⟩, ⟨p1 _ _ _ _, p2 _ _ _ _, p3 _ _ _ _⟩,
    ⟨p1 _ _ _ _, p2 _ _ _ _, p3 _ _ _ _⟩⟩

/-- C7 as stated fails: at resolution (800, 600), time 0 and `fragCoord = (0.5, 0.5)`,
with `exp 0 = 1`, `sin 0 = 0`, `cos 0 = 1`, the plane coordinate `c` of the Mandelbrot
shader is `(-0.745428, 0.141825)`, not `(-0.745428, 0.131825)`: the line
`center += 0.01 * vec2(sin(iTime * 0.15), cos(iTime * 0.1))` adds `0.01 * cos 0 = 0.01`
to the y component. -/
theorem C7_center_pixel_counterexample :
    rationalBuiltins.exp (0 * 0.13) = 1 ∧ rationalBuiltins.sin (0 * 0.15) = 0 ∧
    rationalBuiltins.cos (0 * 0.1) = 1 ∧
    Mandelbrot.mainC rationalBuiltins ⟨0.5, 0.5⟩ ⟨800, 600⟩ 0 = ⟨-0.745428, 0.141825⟩ ∧
    Mandelbrot.mainC rationalBuiltins ⟨0.5, 0.5⟩ ⟨800, 600⟩ 0 ≠ ⟨-0.745428, 0.131825⟩ := by
  have e : Mandelbrot.mainC rationalBuiltins ⟨0.5, 0.5⟩ ⟨800, 600⟩ 0
      = ⟨-0.745428, 0.141825⟩ := by
    unfold Mandelbrot.mainC
    rw [pixelToPlane_center]
    simp only [Mandelbrot.mainCenter, rationalBuiltins, Vec2.add, Vec2.smul]
    norm_num
  refine ⟨?_, ?_, ?_, e, ?_⟩
  · simp [rationalBuiltins]
  · simp [rationalBuiltins]
  · simp [rationalBuiltins]
  · rw [e]
    intro h
    have hy := congrArg Vec2.y h
    norm_num at hy

/-- C7, amended: in the Mandelbrot demo, at resolution (800, 600), time 0 (zoom
`exp 0 = 1`) and `fragCoord = (0.5, 0.5)`, the plane coordinate `c` equals the
animated camera centre `(-0.745428, 0.131825) + 0.01 * (sin 0, cos 0)`, which is
`(-0.745428, 0.141825)`. -/
theorem C7_center_pixel_maps_to_animated_center (B : Builtins) (hexp : B.exp 0 = 1)
    (hsin : B.sin 0 = 0) (hcos : B.cos 0 = 1) :
    Mandelbrot.mainZoom B 0 = 1 ∧
    Mandelbrot.mainC B ⟨0.5, 0.5⟩ ⟨800, 600⟩ 0 = Mandelbrot.mainCenter B 0 ∧
    Mandelbrot.mainCenter B 0 = ⟨-0.745428, 0.141825⟩ ∧
    Mandelbrot.mainC B ⟨0.5, 0.5⟩ ⟨800, 600⟩ 0 = ⟨-0.745428, 0.141825⟩ := by
  have hz : Mandelbrot.mainZoom B 0 = 1 := by
    unfold Mandelbrot.mainZoom
    rw [zero_mul, hexp]
  have hc : Mandelbrot.mainC B ⟨0.5, 0.5⟩ ⟨800, 600⟩ 0 = Mandelbrot.mainCenter B 0 := by
    unfold Mandelbrot.mainC
    rw [pixelToPlane_center]
  have hm : Mandelbrot.mainCenter B 0 = ⟨-0.745428, 0.141825⟩ := by
    simp only [Mandelbrot.mainCenter, zero_mul, hsin, hcos, Vec2.add, Vec2.smul]
    norm_num
  exact ⟨hz, hc, hm, hc.trans hm⟩

/-- C7 amended, at the stand-in built-ins. -/
theorem C7_center_pixel_maps_to_animated_center_witness :
    rationalBuiltins.exp 0 = 1 ∧ rationalBuiltins.sin 0 = 0 ∧ rationalBuiltins.cos 0 = 1 ∧
    Mandelbrot.mainZoom rationalBuiltins 0 = 1 ∧
    Mandelbrot.mainC rationalBuiltins ⟨0.5, 0.5⟩ ⟨800, 600⟩ 0
      = Mandelbrot.mainCenter rationalBuiltins 0 ∧
    Mandelbrot.mainCenter rationalBuiltins 0 = ⟨-0.745428, 0.141825⟩ ∧
    Mandelbrot.mainC rationalBuiltins ⟨0.5, 0.5⟩ ⟨800, 600⟩ 0 = ⟨-0.745428, 0.141825⟩ :=
  ⟨by simp [rationalBuiltins], by simp [rationalBuiltins], by simp [rationalBuiltins],
    C7_center_pixel_maps_to_animated_center rationalBuiltins (by simp [rationalBuiltins])
      (by simp [rationalBuiltins]) (by simp [rationalBuiltins])⟩

/-- C8: for every relative pixel position, every resolution `(w, h)` with
`w, h > 0`, every nonzero zoom and every centre, the pixel-to-plane mapping gives
the same plane coordinate at resolution `(2w, 2h)` as at `(w, h)`, in each of the
three demos (aspect scale 0.2 in the Mandelbrot demo, 1 in the other two). -/
theorem C8_mapping_resolution_invariant (fragCoord : Vec2) (w h zoom : ℚ) (center : Vec2)
    (_hw : 0 < w) (_hh : 0 < h) (_hzoom : zoom ≠ 0) :
    Mandelbrot.pixelToPlane fragCoord ⟨2 * w, 2 * h⟩ zoom center
      = Mandelbrot.pixelToPlane fragCoord ⟨w, h⟩ zoom center ∧
    Julia.pixelToPlane fragCoord ⟨2 * w, 2 * h⟩ zoom center
      = Julia.pixelToPlane fragCoord ⟨w, h⟩ zoom center ∧
    Blend.pixelToPlane fragCoord ⟨2 * w, 2 * h⟩ zoom center
      = Blend.pixelToPlane fragCoord ⟨w, h⟩ zoom center := by
  have k1 : ∀ a b d : ℚ, (a * (2 * b) - 0.5 * (2 * b)) / (2 * d) = (a * b - 0.5 * b) / d := by
    intro a b d
    rw [← mul_div_mul_left (a * b - 0.5 * b) d (two_ne_zero)]
    congr 1
    ring
  refine ⟨?_, ?_, ?_⟩
  · simp only [Mandelbrot.pixelToPlane, Vec2.mul, Vec2.sub, Vec2.smul, Vec2.divs, Vec2.add]
    rw [mul_assoc 2 h 0.2, k1, k1]
  · simp only [Julia.pixelToPlane, Vec2.mul, Vec2.sub, Vec2.smul, Vec2.divs, Vec2.add]
    rw [k1, k1]
  · simp only [Blend.pixelToPlane, Vec2.mul, Vec2.sub, Vec2.smul, Vec2.divs, Vec2.add]
    rw [k1, k1]

/-- C8 at pixel (0.25, 0.75), resolution (800, 600), zoom 2, centre (0.15, 0). -/
theorem C8_mapping_resolution_invariant_witness :
    (0 : ℚ) < 800 ∧ (0 : ℚ) < 600 ∧ (2 : ℚ) ≠ 0 ∧
    Mandelbrot.pixelToPlane ⟨0.25, 0.75⟩ ⟨2 * 800, 2 * 600⟩ 2 ⟨0.15, 0⟩
      = Mandelbrot.pixelToPlane ⟨0.25, 0.75⟩ ⟨800, 600⟩ 2 ⟨0.15, 0⟩ ∧
    Julia.pixelToPlane ⟨0.25, 0.75⟩ ⟨2 * 800, 2 * 600⟩ 2 ⟨0.15, 0⟩
      = Julia.pixelToPlane ⟨0.25, 0.75⟩ ⟨800, 600⟩ 2 ⟨0.15, 0⟩ ∧
    Blend.pixelToPlane ⟨0.25, 0.75⟩ ⟨2 * 800, 2 * 600⟩ 2 ⟨0.15, 0⟩
      = Blend.pixelToPlane ⟨0.25, 0.75⟩ ⟨800, 600⟩ 2 ⟨0.15, 0⟩ :=
  ⟨by norm_num, by norm_num, by norm_num,
    C8_mapping_resolution_invariant ⟨0.25, 0.75⟩ 800 600 2 ⟨0.15, 0⟩
      (by norm_num) (by norm_num) (by norm_num)⟩

/-- C9: in the blended demo, for every elapsed time the blend weight
`(sin(iTime * 0.2) + 1) * 0.4` lies in `[0, 0.8]`, and the scalar passed to the
palette is `(1 - w) * mandelbrotVal + w * juliaVal` for that weight `w`; for every
pixel it lies between the two evaluator outputs and so in `[0, 1]`.  `sin` is
assumed to take values in `[-1, 1]`. -/
theorem C9_blend_weight_and_scalar (B : Builtins)
    (hsin : ∀ x, -1 ≤ B.sin x ∧ B.sin x ≤ 1) (z : Vec2) (iTime : ℚ) :
    (0 ≤ Blend.blendWeight B iTime ∧ Blend.blendWeight B iTime ≤ 0.8) ∧
    Blend.blendWeight B iTime = (B.sin (iTime * 0.2) + 1) * 0.4 ∧
    Blend.blendedVal B z iTime
      = (1 - Blend.blendWeight B iTime) * Blend.mandelbrot z
        + Blend.blendWeight B iTime * Blend.julia ⟨-0.8, 0.156⟩ z ∧
    (0 ≤ Blend.blendedVal B z iTime ∧ Blend.blendedVal B z iTime ≤ 1) ∧
    (min (Blend.mandelbrot z) (Blend.julia ⟨-0.8, 0.156⟩ z) ≤ Blend.blendedVal B z iTime ∧
      Blend.blendedVal B z iTime ≤ max (Blend.mandelbrot z) (Blend.julia ⟨-0.8, 0.156⟩ z)) ∧
    (∀ fragCoord iResolution iCenter : Vec2,
      Blend.main B fragCoord iResolution iTime iCenter =
        (let color := Blend.palette
          (Blend.blendedVal B (Blend.mainZ fragCoord iResolution iTime iCenter) iTime)
         ⟨color.x, color.y, color.z, 1⟩)) := by
  have hw := blendWeight_mem B hsin iTime
  refine ⟨hw, rfl, ?_, blendedVal_mem B hsin z iTime, ?_, fun _ _ _ => rfl⟩
  · simp only [Blend.blendedVal, mix]
    ring
  · exact mix_between _ _ _ ⟨hw.1, le_trans hw.2 (by norm_num)⟩

/-- C9 at the stand-in built-ins, plane coordinate (3, 0), time 5. -/
theorem C9_blend_weight_and_scalar_witness :
    (∀ x, -1 ≤ rationalBuiltins.sin x ∧ rationalBuiltins.sin x ≤ 1) ∧
    (0 ≤ Blend.blendWeight rationalBuiltins 5 ∧ Blend.blendWeight rationalBuiltins 5 ≤ 0.8) ∧
    (0 ≤ Blend.blendedVal rationalBuiltins ⟨3, 0⟩ 5 ∧
      Blend.blendedVal rationalBuiltins ⟨3, 0⟩ 5 ≤ 1) :=
  have h := C9_blend_weight_and_scalar rationalBuiltins rationalBuiltins_sin_mem ⟨3, 0⟩ 5
  ⟨rationalBuiltins_sin_mem, h.1, h.2.2.2.1⟩

/-! ## Evaluating the evaluator at chosen points -/

/-- When the orbit first leaves the disc at index `k < N`, the value is `k / N`. -/
theorem escape_of_first_escape (N k : ℕ) (z0 c : Vec2) (hk : k < N)
    (h1 : ∀ n, n < k → ¬ escaped (orbit z0 c n)) (h2 : escaped (orbit z0 c k)) :
    escape N z0 c = (k : ℚ) / (N : ℚ) := by
  obtain ⟨_, _, _, _, h5, h6⟩ := escapeRun_spec N z0 c
  have hik : (escapeRun N z0 c).iter = k := by
    rcases Nat.lt_trichotomy (escapeRun N z0 c).iter k with hlt | heq | hgt
    · exact absurd (h6 (by omega)) (h1 _ hlt)
    · exact heq
    · exact absurd h2 (h5 k (Nat.zero_le k) hgt)
  unfold escape
  rw [hik]

/-- An escaped seed gives the value `0`. -/
theorem escape_of_escaped_seed (N : ℕ) (z0 c : Vec2) (h : escaped z0) :
    escape N z0 c = 0 := by
  unfold escape
  rw [escapeRun_of_escaped N z0 c h]
  simp

/-- With constant `0`, a step squares the squared magnitude. -/
theorem lengthSq_step_zero (z : Vec2) :
    (step z ⟨0, 0⟩).lengthSq = z.lengthSq * z.lengthSq := by
  simp only [step, Vec2.add, Vec2.lengthSq]
  ring

/-- With constant `0`, an orbit started in the closed unit disc stays in it. -/
theorem orbit_zero_unit_disc (z : Vec2) (h : z.lengthSq ≤ 1) (n : ℕ) :
    (orbit z ⟨0, 0⟩ n).lengthSq ≤ 1 := by
  induction n with
  | zero => exact h
  | succ n ih =>
    have h0 : 0 ≤ (orbit z ⟨0, 0⟩ n).lengthSq := by
      unfold Vec2.lengthSq
      nlinarith [mul_self_nonneg (orbit z ⟨0, 0⟩ n).x, mul_self_nonneg (orbit z ⟨0, 0⟩ n).y]
    show (step (orbit z ⟨0, 0⟩ n) ⟨0, 0⟩).lengthSq ≤ 1
    rw [lengthSq_step_zero]
    calc (orbit z ⟨0, 0⟩ n).lengthSq * (orbit z ⟨0, 0⟩ n).lengthSq
        ≤ 1 * 1 := mul_le_mul ih ih h0 (by norm_num)
      _ = 1 := by norm_num

/-- With constant `0`, a seed of the closed unit disc saturates the evaluator. -/
theorem escape_zero_of_unit_disc (N : ℕ) (z : Vec2) (hN : 1 ≤ N) (h : z.lengthSq ≤ 1) :
    escape N z ⟨0, 0⟩ = 1 := by
  apply escape_eq_one_of_bounded N z ⟨0, 0⟩ hN
  intro n _
  have := orbit_zero_unit_disc z h n
  unfold escaped
  linarith

/-- On the positive real axis beyond 2 every scaled point is an escaped seed. -/
theorem escaped_axis_muls (a f : ℚ) (h : 2 < a * f) : escaped ((Vec2.mk a 0).muls f) := by
  unfold escaped Vec2.lengthSq Vec2.muls
  simp only
  nlinarith

/-- Scaling the origin leaves it at the origin. -/
theorem origin_muls (f : ℚ) : (Vec2.mk 0 0).muls f = ⟨0, 0⟩ := by
  simp [Vec2.muls]

/-- Value of `mandelbrot` at `(3/2, 0)`: one counted iteration. -/
theorem mandelbrot_three_halves :
    Mandelbrot.mandelbrot ((Vec2.mk (3 / 2) 0).muls 1) = 1 / 300 := by
  have h := escape_of_first_escape 300 1 ((Vec2.mk (3 / 2) 0).muls 1)
    ((Vec2.mk (3 / 2) 0).muls 1) (by norm_num)
    (by
      intro n hn
      interval_cases n
      simp only [orbit, escaped, Vec2.lengthSq, Vec2.muls]
      norm_num)
    (by
      simp only [orbit, step, Vec2.add, escaped, Vec2.lengthSq, Vec2.muls]
      norm_num)
  unfold Mandelbrot.mandelbrot Mandelbrot.MAX_ITER
  rw [h]
  norm_num

/-- Value of `julia` with constant `0` on the axis inside the unit disc. -/
theorem julia_axis_unit (a f : ℚ) (h : (a * f) * (a * f) ≤ 1) :
    Julia.julia ((Vec2.mk a 0).muls f) ⟨0, 0⟩ = 1 := by
  unfold Julia.julia Julia.MAX_ITER
  apply escape_zero_of_unit_disc 300 _ (by norm_num)
  simp only [Vec2.lengthSq, Vec2.muls]
  nlinarith

/-- Value of `julia` with constant `0` at an axis point that escapes after one step. -/
theorem julia_axis_one_step (a f : ℚ) (h0 : (a * f) * (a * f) ≤ 4)
    (h1 : 2 < (a * f) * (a * f)) :
    Julia.julia ((Vec2.mk a 0).muls f) ⟨0, 0⟩ = 1 / 300 := by
  have h := escape_of_first_escape 300 1 ((Vec2.mk a 0).muls f) ⟨0, 0⟩ (by norm_num)
    (by
      intro n hn
      interval_cases n
      simp only [orbit, escaped, Vec2.lengthSq, Vec2.muls]
      nlinarith)
    (by
      simp only [orbit, step, Vec2.add, escaped, Vec2.lengthSq, Vec2.muls]
      nlinarith)
  unfold Julia.julia Julia.MAX_ITER
  rw [h]
  norm_num

/-- Value of `julia` with constant `0` at an axis point that escapes after two steps. -/
theorem julia_axis_two_steps (a f : ℚ) (h0 : (a * f) * (a * f) ≤ 2)
    (h1 : 2 < (a * f) * (a * f) * ((a * f) * (a * f))) :
    Julia.julia ((Vec2.mk a 0).muls f) ⟨0, 0⟩ = 2 / 300 := by
  have hsq : 0 ≤ (a * f) * (a * f) := mul_self_nonneg _
  have h := escape_of_first_escape 300 2 ((Vec2.mk a 0).muls f) ⟨0, 0⟩ (by norm_num)
    (by
      intro n hn
      interval_cases n
      · simp only [orbit, escaped, Vec2.lengthSq, Vec2.muls]
        nlinarith
      · simp only [orbit, step, Vec2.add, escaped, Vec2.lengthSq, Vec2.muls]
        nlinarith)
    (by
      simp only [orbit, step, Vec2.add, escaped, Vec2.lengthSq, Vec2.muls]
      nlinarith)
  unfold Julia.julia Julia.MAX_ITER
  rw [h]
  norm_num

/-- Two successive scalings are one scaling by the product. -/
theorem muls_muls (v : Vec2) (s f : ℚ) : (v.muls s).muls f = v.muls (s * f) := by
  simp [Vec2.muls, mul_assoc]

/-- Value of `mandelbrot` at an axis point beyond radius 2. -/
theorem mandelbrot_axis_far (a f : ℚ) (h : 2 < a * f) :
    Mandelbrot.mandelbrot ((Vec2.mk a 0).muls f) = 0 :=
  escape_of_escaped_seed _ _ _ (escaped_axis_muls a f h)

/-- Value of `julia` at an axis point beyond radius 2. -/
theorem julia_axis_far (a f : ℚ) (c : Vec2) (h : 2 < a * f) :
    Julia.julia ((Vec2.mk a 0).muls f) c = 0 :=
  escape_of_escaped_seed _ _ _ (escaped_axis_muls a f h)

/-- Value of `mandelbrot` at the origin. -/
theorem mandelbrot_origin : Mandelbrot.mandelbrot ⟨0, 0⟩ = 1 :=
  escape_zero_of_unit_disc 300 ⟨0, 0⟩ (by norm_num) (by simp [Vec2.lengthSq])

/-- Value of `julia` at the origin with constant `0`. -/
theorem julia_origin : Julia.julia ⟨0, 0⟩ ⟨0, 0⟩ = 1 :=
  escape_zero_of_unit_disc 300 ⟨0, 0⟩ (by norm_num) (by simp [Vec2.lengthSq])

/-! ## Claim on the interior decoration -/

/-- C10 as stated fails.  (1) In the Mandelbrot demo no strictly decreasing
weights make `innerFractal` the six-scale sum at the pixel's own coordinate `c`:
`main` passes `scale = 2.0`, so at `c = (3/2, 0)` every evaluated point is
outside radius 2 and `innerFractal = 0`, while `mandelbrot(c) = 1/300`, and at
`c = (0, 0)` `innerFractal = 3.15`.  (2) In the Julia demo `recursiveFractal` is
not a six-scale sum even relative to its scaled base `z * scale`: it has four
terms; the points `(1/10, 0)`, `(1/8, 0)`, `(1/6, 0)` with constant `(0, 0)`
force the fifth and sixth weights to be both `0`.  (3) Nor is the Julia
`innerFractal` the six-scale sum at the pixel's own coordinate `z`. -/
theorem C10_six_scale_sum_counterexample :
    (¬ ∃ w1 w2 w3 w4 w5 w6 : ℚ, StrictlyDecreasing6 w1 w2 w3 w4 w5 w6 ∧
      ∀ (c : Vec2) (iTime : ℚ), Mandelbrot.innerFractal c iTime
        = sixScaleSum Mandelbrot.mandelbrot w1 w2 w3 w4 w5 w6 c) ∧
    (¬ ∃ w1 w2 w3 w4 w5 w6 : ℚ, StrictlyDecreasing6 w1 w2 w3 w4 w5 w6 ∧
      ∀ (z c : Vec2) (scale iTime : ℚ), Julia.recursiveFractal z c scale iTime
        = sixScaleSum (fun q => Julia.julia q c) w1 w2 w3 w4 w5 w6 (z.muls scale)) ∧
    (¬ ∃ w1 w2 w3 w4 w5 w6 : ℚ, StrictlyDecreasing6 w1 w2 w3 w4 w5 w6 ∧
      ∀ (z c : Vec2) (iTime : ℚ), Julia.innerFractal z c iTime
        = sixScaleSum (fun q => Julia.julia q c) w1 w2 w3 w4 w5 w6 z) := by
  refine ⟨?_, ?_, ?_⟩
  · rintro ⟨w1, w2, w3, w4, w5, w6, ⟨h12, h23, h34, h45, h56⟩, hall⟩
    have e1 := hall ⟨3 / 2, 0⟩ 0
    have e2 := hall ⟨0, 0⟩ 0
    simp only [Mandelbrot.innerFractal, Mandelbrot.recursiveFractal, sixScaleSum,
      muls_muls] at e1
    rw [mandelbrot_three_halves,
      mandelbrot_axis_far (3 / 2) 2 (by norm_num), mandelbrot_axis_far (3 / 2) 4 (by norm_num),
      mandelbrot_axis_far (3 / 2) 6 (by norm_num), mandelbrot_axis_far (3 / 2) 8 (by norm_num),
      mandelbrot_axis_far (3 / 2) 10 (by norm_num),
      mandelbrot_axis_far (3 / 2) (2 * 2) (by norm_num),
      mandelbrot_axis_far (3 / 2) (2 * 4) (by norm_num),
      mandelbrot_axis_far (3 / 2) (2 * 6) (by norm_num),
      mandelbrot_axis_far (3 / 2) (2 * 8) (by norm_num),
      mandelbrot_axis_far (3 / 2) (2 * 10) (by norm_num)] at e1
    simp only [Mandelbrot.innerFractal, Mandelbrot.recursiveFractal, sixScaleSum,
      origin_muls, mandelbrot_origin] at e2
    norm_num at e1 e2
    linarith
  · rintro ⟨w1, w2, w3, w4, w5, w6, ⟨h12, h23, h34, h45, h56⟩, hall⟩
    have e1 := hall ⟨1 / 10, 0⟩ ⟨0, 0⟩ 1 0
    have e2 := hall ⟨1 / 8, 0⟩ ⟨0, 0⟩ 1 0
    have e3 := hall ⟨1 / 6, 0⟩ ⟨0, 0⟩ 1 0
    simp only [Julia.recursiveFractal, sixScaleSum, muls_muls] at e1 e2 e3
    rw [julia_axis_unit (1 / 10) 1 (by norm_num),
      julia_axis_unit (1 / 10) (1 * 1) (by norm_num),
      julia_axis_unit (1 / 10) (1 * 2) (by norm_num),
      julia_axis_unit (1 / 10) (1 * 4) (by norm_num),
      julia_axis_unit (1 / 10) (1 * 6) (by norm_num),
      julia_axis_unit (1 / 10) (1 * 8) (by norm_num),
      julia_axis_unit (1 / 10) (1 * 10) (by norm_num)] at e1
    rw [julia_axis_unit (1 / 8) 1 (by norm_num),
      julia_axis_unit (1 / 8) (1 * 1) (by norm_num),
      julia_axis_unit (1 / 8) (1 * 2) (by norm_num),
      julia_axis_unit (1 / 8) (1 * 4) (by norm_num),
      julia_axis_unit (1 / 8) (1 * 6) (by norm_num),
      julia_axis_unit (1 / 8) (1 * 8) (by norm_num),
      julia_axis_two_steps (1 / 8) (1 * 10) (by norm_num) (by norm_num)] at e2
    rw [julia_axis_unit (1 / 6) 1 (by norm_num),
      julia_axis_unit (1 / 6) (1 * 1) (by norm_num),
      julia_axis_unit (1 / 6) (1 * 2) (by norm_num),
      julia_axis_unit (1 / 6) (1 * 4) (by norm_num),
      julia_axis_unit (1 / 6) (1 * 6) (by norm_num),
      julia_axis_two_steps (1 / 6) (1 * 8) (by norm_num) (by norm_num),
      julia_axis_one_step (1 / 6) (1 * 10) (by norm_num) (by norm_num)] at e3
    norm_num at e1 e2 e3
    linarith
  · rintro ⟨w1, w2, w3, w4, w5, w6, ⟨h12, h23, h34, h45, h56⟩, hall⟩
    have e1 := hall ⟨3 / 2, 0⟩ ⟨0, 0⟩ 0
    have e2 := hall ⟨0, 0⟩ ⟨0, 0⟩ 0
    simp only [Julia.innerFractal, Julia.recursiveFractal, sixScaleSum, muls_muls] at e1
    rw [julia_axis_one_step (3 / 2) 1 (by norm_num) (by norm_num),
      julia_axis_far (3 / 2) 2 _ (by norm_num), julia_axis_far (3 / 2) 4 _ (by norm_num),
      julia_axis_far (3 / 2) 6 _ (by norm_num), julia_axis_far (3 / 2) 8 _ (by norm_num),
      julia_axis_far (3 / 2) 10 _ (by norm_num),
      julia_axis_far (3 / 2) (2 * 2) _ (by norm_num),
      julia_axis_far (3 / 2) (2 * 4) _ (by norm_num),
      julia_axis_far (3 / 2) (2 * 6) _ (by norm_num)] at e1
    simp only [Julia.innerFractal, Julia.recursiveFractal, sixScaleSum,
      origin_muls, julia_origin] at e2
    norm_num at e1 e2
    linarith

/-- C10, amended: in the Mandelbrot demo the interior-decoration value (used when
the escape scalar exceeds 0.98) is `recursiveFractal(c, 2.0, iTime)`: the weighted
sum of `mandelbrot` at `c * 2` scaled by the six factors ×1, ×2, ×4, ×6, ×8, ×10,
that is at `c` times 2, 4, 8, 12, 16, 20, with strictly decreasing weights
0.95, 0.8, 0.6, 0.4, 0.3, 0.1.  In the Julia demo it is a sum over four pairs:
`julia` at `z * 2` scaled by ×1, ×2, ×4, ×6, that is at `z` times 2, 4, 8, 12,
with strictly decreasing weights 0.8, 0.5, 0.3, 0.1. -/
theorem C10_inner_fractal_sums (c z k : Vec2) (iTime : ℚ) :
    Mandelbrot.innerFractal c iTime
      = sixScaleSum Mandelbrot.mandelbrot 0.95 0.8 0.6 0.4 0.3 0.1 (c.muls 2) ∧
    Mandelbrot.innerFractal c iTime
      = 0.95 * Mandelbrot.mandelbrot (c.muls 2) + 0.8 * Mandelbrot.mandelbrot (c.muls 4)
        + 0.6 * Mandelbrot.mandelbrot (c.muls 8) + 0.4 * Mandelbrot.mandelbrot (c.muls 12)
        + 0.3 * Mandelbrot.mandelbrot (c.muls 16) + 0.1 * Mandelbrot.mandelbrot (c.muls 20) ∧
    StrictlyDecreasing6 0.95 0.8 0.6 0.4 0.3 0.1 ∧
    Julia.innerFractal z k iTime
      = 0.8 * Julia.julia (z.muls 2) k + 0.5 * Julia.julia (z.muls 4) k
        + 0.3 * Julia.julia (z.muls 8) k + 0.1 * Julia.julia (z.muls 12) k ∧
    ((0.8 : ℚ) > 0.5 ∧ (0.5 : ℚ) > 0.3 ∧ (0.3 : ℚ) > 0.1) ∧
    Mandelbrot.shade c iTime
      = (if Mandelbrot.mandelbrot c > 0.98 then
          mix3 (Mandelbrot.palette (Mandelbrot.mandelbrot c))
            (mix3 ⟨0.427, 0.137, 0.137⟩ ⟨0.996, 0.976, 0.882⟩
              (fmod (Mandelbrot.innerFractal c iTime * 15) 1)) 0.95
        else Mandelbrot.palette (Mandelbrot.mandelbrot c)) ∧
    Julia.shade z k iTime
      = (if Julia.julia z k > 0.98 then
          mix3 (Julia.palette (Julia.julia z k))
            (mix3 ⟨0.427, 0.137, 0.137⟩ ⟨0.996, 0.976, 0.882⟩
              (fmod (Julia.innerFractal z k iTime * 15) 1)) 0.95
        else Julia.palette (Julia.julia z k)) := by
  have m1 : ∀ v : Vec2, v.muls 1 = v := by
    intro v
    simp [Vec2.muls]
  have e4 : (2 : ℚ) * 2 = 4 := by norm_num
  have e8 : (2 : ℚ) * 4 = 8 := by norm_num
  have e12 : (2 : ℚ) * 6 = 12 := by norm_num
  have e16 : (2 : ℚ) * 8 = 16 := by norm_num
  have e20 : (2 : ℚ) * 10 = 20 := by norm_num
  refine ⟨?_, ?_, ?_, ?_, ?_, ?_, ?_⟩
  · simp only [Mandelbrot.innerFractal, Mandelbrot.recursiveFractal, sixScaleSum, m1]
    ring
  · simp only [Mandelbrot.innerFractal, Mandelbrot.recursiveFractal, muls_muls,
      e4, e8, e12, e16, e20]
    ring
  · unfold StrictlyDecreasing6
    norm_num
  · simp only [Julia.innerFractal, Julia.recursiveFractal, muls_muls, e4, e8, e12]
    ring
  · norm_num
  · rfl
  · rfl

/-! ## The zoom cycle of the blended demo -/

/-- Invariant of the loop in the arithmetic `A`, started on the computed orbit at
index `i` with enough fuel. -/
theorem escapeLoopWith_spec (A : FloatOps) (N : ℕ) (z0 c : Vec2) :
    ∀ (fuel i : ℕ), i + fuel = N →
      LoopPostWith A N z0 c i (escapeLoopWith A N c fuel ⟨orbitWith A z0 c i, i, i⟩) := by
  intro fuel
  induction fuel with
  | zero =>
    intro i hi
    have hs : escapeLoopWith A N c 0 ⟨orbitWith A z0 c i, i, i⟩
        = ⟨orbitWith A z0 c i, i, i⟩ := rfl
    rw [hs]
    refine ⟨rfl, le_refl _, ?_, rfl, ?_, ?_⟩
    · show i ≤ N
      omega
    · intro n h1 h2
      have h2 : n < i := h2
      omega
    · intro h
      have h : i < N := h
      omega
  | succ fuel ih =>
    intro i hi
    have hlt : i < N := by omega
    cases he : A.lengthGt (orbitWith A z0 c i) 2 with
    | true =>
      have hs : escapeLoopWith A N c (fuel + 1) ⟨orbitWith A z0 c i, i, i⟩
          = ⟨orbitWith A z0 c i, i, i⟩ := by
        simp [escapeLoopWith, hlt, he]
      rw [hs]
      refine ⟨rfl, le_refl _, ?_, rfl, ?_, ?_⟩
      · show i ≤ N
        omega
      · intro n h1 h2
        have h2 : n < i := h2
        omega
      · intro _
        exact he
    | false =>
      have hs : escapeLoopWith A N c (fuel + 1) ⟨orbitWith A z0 c i, i, i⟩
          = escapeLoopWith A N c fuel ⟨orbitWith A z0 c (i + 1), i + 1, i + 1⟩ := by
        simp [escapeLoopWith, hlt, he, orbitWith]
      rw [hs]
      obtain ⟨h1, h2, h3, h4, h5, h6⟩ := ih (i + 1) (by omega)
      refine ⟨h1, by omega, h3, h4, ?_, h6⟩
      intro n hn1 hn2
      by_cases hni : n = i
      · subst hni
        exact he
      · exact h5 n (by omega) hn2

/-- The run from the seed in the arithmetic `A`: loop post-condition at index 0. -/
theorem escapeRunWith_spec (A : FloatOps) (N : ℕ) (z0 c : Vec2) :
    LoopPostWith A N z0 c 0 (escapeRunWith A N z0 c) :=
  escapeLoopWith_spec A N z0 c N 0 (by omega)

/-- In exact arithmetic the parametrised loop is the rational loop. -/
theorem escapeLoopWith_exactOps (N : ℕ) (c : Vec2) :
    ∀ (fuel : ℕ) (s : LoopState), escapeLoopWith exactOps N c fuel s = escapeLoop N c fuel s := by
  intro fuel
  induction fuel with
  | zero =>
    intro s
    rfl
  | succ fuel ih =>
    intro s
    have hstep : stepWith exactOps s.z c = step s.z c := rfl
    have htest : (exactOps.lengthGt s.z 2 = true) ↔ escaped s.z := by
      show decide ((2 : ℚ) * 2 < s.z.lengthSq) = true ↔ escaped s.z
      rw [decide_eq_true_iff]
      rfl
    by_cases hlt : s.iter < N
    · by_cases he : escaped s.z
      · have he2 : exactOps.lengthGt s.z 2 = true := htest.2 he
        simp [escapeLoopWith, escapeLoop, hlt, he, he2]
      · have he2 : ¬ exactOps.lengthGt s.z 2 = true := fun h => he (htest.1 h)
        simp only [escapeLoopWith, escapeLoop, hlt, he, he2, if_true, if_false, hstep]
        exact ih _
    · simp [escapeLoopWith, escapeLoop, hlt]

/-- In exact arithmetic the parametrised evaluator is the rational evaluator. -/
theorem escapeWith_exactOps (N : ℕ) (z0 c : Vec2) :
    escapeWith exactOps N z0 c = escape N z0 c := by
  unfold escapeWith escape escapeRunWith escapeRun
  rw [escapeLoopWith_exactOps]
  rfl

/-- In exact arithmetic the parametrised zoom is the rational zoom. -/
theorem mainZoomWith_exactOps (iTime : ℚ) :
    Blend.mainZoomWith exactOps iTime = Blend.mainZoom iTime := rfl

/-- The counter equals the cap exactly when no computed iterate below the cap
passes the test. -/
theorem escapeRunWith_iter_eq_cap_iff (A : FloatOps) (N : ℕ) (z0 c : Vec2) :
    (escapeRunWith A N z0 c).iter = N ↔
      ∀ n, n < N → A.lengthGt (orbitWith A z0 c n) 2 = false := by
  obtain ⟨_, _, h3, _, h5, h6⟩ := escapeRunWith_spec A N z0 c
  constructor
  · intro h n hn
    exact h5 n (Nat.zero_le n) (by omega)
  · intro h
    by_contra hne
    have hlt : (escapeRunWith A N z0 c).iter < N := lt_of_le_of_ne h3 hne
    have h1 := h6 hlt
    rw [h _ hlt] at h1
    exact Bool.false_ne_true h1

/-- When the division separates the counts below the cap from the cap, the
value is that of `N / N` exactly when no computed iterate passes the test. -/
theorem escapeWith_eq_cap_iff (A : FloatOps) (N : ℕ) (z0 c : Vec2)
    (hdiv : ∀ j : ℕ, j < N → A.div (j : ℚ) (N : ℚ) ≠ A.div (N : ℚ) (N : ℚ)) :
    escapeWith A N z0 c = A.div (N : ℚ) (N : ℚ) ↔
      ∀ n, n < N → A.lengthGt (orbitWith A z0 c n) 2 = false := by
  rw [← escapeRunWith_iter_eq_cap_iff]
  obtain ⟨_, _, h3, _, _, _⟩ := escapeRunWith_spec A N z0 c
  unfold escapeWith
  constructor
  · intro h
    by_contra hne
    exact hdiv _ (lt_of_le_of_ne h3 hne) h
  · intro h
    rw [h]

/-- In binary32 a count below the cap 300 never divides to `1.0`. -/
theorem binary32_div_300_ne_one (j : ℕ) (hj : j < 300) :
    binary32.div (j : ℚ) ((300 : ℕ) : ℚ) ≠ binary32.div ((300 : ℕ) : ℚ) ((300 : ℕ) : ℚ) := by
  have h : ∀ i : Fin 300,
      binary32.div ((i.val : ℕ) : ℚ) ((300 : ℕ) : ℚ)
        ≠ binary32.div ((300 : ℕ) : ℚ) ((300 : ℕ) : ℚ) := by
    decide!
  exact h ⟨j, hj⟩

/-- In binary32 a count below the cap 256 never divides to `1.0`. -/
theorem binary32_div_256_ne_one (j : ℕ) (hj : j < 256) :
    binary32.div (j : ℚ) ((256 : ℕ) : ℚ) ≠ binary32.div ((256 : ℕ) : ℚ) ((256 : ℕ) : ℚ) := by
  have h : ∀ i : Fin 256,
      binary32.div ((i.val : ℕ) : ℚ) ((256 : ℕ) : ℚ)
        ≠ binary32.div ((256 : ℕ) : ℚ) ((256 : ℕ) : ℚ) := by
    decide!
  exact h ⟨j, hj⟩

/-- C1 as stated fails in binary32.  (1) The seed `(2, 2⁻¹⁷)` has magnitude above
2, so the claimed least index is 0 and the claimed value `0 / 300`; the computed
`length` is `2.0`, the test fails, one step is counted and `mandelbrot` returns
`1 / 300` (rounded).  (2) At `(49/256, 899/1024)` the iterates `z_0, z_1, z_2` of
the exact recurrence stay within radius 2 and `z_3` exceeds it, so the claimed
value is `3 / 256`; the shader's `mandelbrot` (cap 256) returns `4 / 256`. -/
theorem C1_least_index_counterexample :
    (escaped ⟨2, 1 / 2 ^ 17⟩ ∧
      binary32.lengthGt ⟨2, 1 / 2 ^ 17⟩ 2 = false ∧
      (escapeRunWith binary32 300 ⟨2, 1 / 2 ^ 17⟩ ⟨2, 1 / 2 ^ 17⟩).iter = 1 ∧
      Mandelbrot.mandelbrotWith binary32 ⟨2, 1 / 2 ^ 17⟩ = 7158279 / 2147483648 ∧
      Mandelbrot.mandelbrotWith binary32 ⟨2, 1 / 2 ^ 17⟩ ≠ 0) ∧
    (¬ escaped (orbit ⟨49 / 256, 899 / 1024⟩ ⟨49 / 256, 899 / 1024⟩ 0) ∧
      ¬ escaped (orbit ⟨49 / 256, 899 / 1024⟩ ⟨49 / 256, 899 / 1024⟩ 1) ∧
      ¬ escaped (orbit ⟨49 / 256, 899 / 1024⟩ ⟨49 / 256, 899 / 1024⟩ 2) ∧
      escaped (orbit ⟨49 / 256, 899 / 1024⟩ ⟨49 / 256, 899 / 1024⟩ 3) ∧
      (escapeRunWith binary32 256 ⟨49 / 256, 899 / 1024⟩ ⟨49 / 256, 899 / 1024⟩).iter = 4 ∧
      Blend.mandelbrotWith binary32 ⟨49 / 256, 899 / 1024⟩ = 4 / 256 ∧
      Blend.mandelbrotWith binary32 ⟨49 / 256, 899 / 1024⟩ ≠ 3 / 256) := by
  decide!

/-- C1, amended: for every seed, constant and cap `N ≥ 1`, in whatever float
arithmetic the loop runs, the evaluator returns the computed `k / N` where `k` is
the least index `n < N` at which the loop's own test `length(z_n) > 2.0` holds of
the computed iterate `z_n` (`z_0 = seed`, `z_{n+1}` the computed `z_n² + c`), and
`k = N` when there is none; `k` is also the number of counted iterations, so
nothing is counted after the first iterate that passes the test.  The result is
that of `N / N` exactly when no computed iterate below the cap passes the test,
provided the division separates smaller counts from the cap; in binary32 at the
caps 300 and 256 of the sources that is: the result is `1.0` exactly then. -/
theorem C1_escape_least_computed_index (A : FloatOps) (N : ℕ) (z0 c : Vec2) (_hN : 1 ≤ N) :
    (∃ k : ℕ, escapeWith A N z0 c = A.div (k : ℚ) (N : ℚ) ∧ k ≤ N ∧
      (∀ n, n < k → A.lengthGt (orbitWith A z0 c n) 2 = false) ∧
      (k < N → A.lengthGt (orbitWith A z0 c k) 2 = true) ∧
      (k = N ↔ ∀ n, n < N → A.lengthGt (orbitWith A z0 c n) 2 = false) ∧
      (escapeRunWith A N z0 c).steps = k ∧
      (escapeRunWith A N z0 c).z = orbitWith A z0 c k) ∧
    ((∀ j : ℕ, j < N → A.div (j : ℚ) (N : ℚ) ≠ A.div (N : ℚ) (N : ℚ)) →
      (escapeWith A N z0 c = A.div (N : ℚ) (N : ℚ) ↔
        ∀ n, n < N → A.lengthGt (orbitWith A z0 c n) 2 = false)) ∧
    (Mandelbrot.mandelbrotWith binary32 c = 1 ↔
      ∀ n, n < 300 → binary32.lengthGt (orbitWith binary32 c c n) 2 = false) ∧
    (Julia.juliaWith binary32 z0 c = 1 ↔
      ∀ n, n < 300 → binary32.lengthGt (orbitWith binary32 z0 c n) 2 = false) ∧
    (Blend.mandelbrotWith binary32 c = 1 ↔
      ∀ n, n < 256 → binary32.lengthGt (orbitWith binary32 c c n) 2 = false) ∧
    (Blend.juliaWith binary32 c z0 = 1 ↔
      ∀ n, n < 256 → binary32.lengthGt (orbitWith binary32 z0 c n) 2 = false) ∧
    Mandelbrot.mandelbrotWith A c = escapeWith A 300 c c ∧
    Julia.juliaWith A z0 c = escapeWith A 300 z0 c := by
  have one300 : binary32.div ((300 : ℕ) : ℚ) ((300 : ℕ) : ℚ) = 1 := by decide!
  have one256 : binary32.div ((256 : ℕ) : ℚ) ((256 : ℕ) : ℚ) = 1 := by decide!
  have k300 : ∀ a b : Vec2, escapeWith binary32 300 a b = 1 ↔
      ∀ n, n < 300 → binary32.lengthGt (orbitWith binary32 a b n) 2 = false := by
    intro a b
    rw [← one300]
    exact escapeWith_eq_cap_iff binary32 300 a b binary32_div_300_ne_one
  have k256 : ∀ a b : Vec2, escapeWith binary32 256 a b = 1 ↔
      ∀ n, n < 256 → binary32.lengthGt (orbitWith binary32 a b n) 2 = false := by
    intro a b
    rw [← one256]
    exact escapeWith_eq_cap_iff binary32 256 a b binary32_div_256_ne_one
  obtain ⟨h1, _, h3, h4, h5, h6⟩ := escapeRunWith_spec A N z0 c
  refine ⟨⟨(escapeRunWith A N z0 c).iter, rfl, h3, fun n hn => h5 n (Nat.zero_le n) hn, h6,
    escapeRunWith_iter_eq_cap_iff A N z0 c, h1, h4⟩,
    escapeWith_eq_cap_iff A N z0 c, k300 c c, k300 z0 c, k256 c c, k256 z0 c, rfl, rfl⟩

/-- C1 amended, in binary32 at cap 3, seed and constant `(1, 1)`. -/
theorem C1_escape_least_computed_index_witness :
    1 ≤ 3 ∧
    ∃ k : ℕ, escapeWith binary32 3 ⟨1, 1⟩ ⟨1, 1⟩ = binary32.div (k : ℚ) ((3 : ℕ) : ℚ) ∧ k ≤ 3 ∧
      (∀ n, n < k → binary32.lengthGt (orbitWith binary32 ⟨1, 1⟩ ⟨1, 1⟩ n) 2 = false) ∧
      (k < 3 → binary32.lengthGt (orbitWith binary32 ⟨1, 1⟩ ⟨1, 1⟩ k) 2 = true) ∧
      (k = 3 ↔ ∀ n, n < 3 → binary32.lengthGt (orbitWith binary32 ⟨1, 1⟩ ⟨1, 1⟩ n) 2 = false) ∧
      (escapeRunWith binary32 3 ⟨1, 1⟩ ⟨1, 1⟩).steps = k ∧
      (escapeRunWith binary32 3 ⟨1, 1⟩ ⟨1, 1⟩).z = orbitWith binary32 ⟨1, 1⟩ ⟨1, 1⟩ k :=
  ⟨by decide, (C1_escape_least_computed_index binary32 3 ⟨1, 1⟩ ⟨1, 1⟩ (by decide)).1⟩

end Fractals
